import Mathlib

/-!
Verification of the PetIGA binary codec (`src/igakit/io.py`).

The codec serializes a tensor-product NURBS geometry, dense vectors and
compressed-row sparse matrices to a binary stream.  We embed the codec at two
levels:

* a typed wire-stream model (`WItem` streams) for the structural logic of
  `PetIGA.write` / `PetIGA.read` / `write_vec` / `read_vec` / `read_mat`:
  every on-disk element is one stream item tagged with its element type
  (Index / Real / Scalar), mirroring the fact that the Python code reads and
  writes whole typed elements via `numpy.fromfile` / `tofile`;

* a byte-level model (`readMatB` and the `_read` primitives) used to reason
  about byte-order handling: `PetIGA._read` converts what `np.fromfile`
  returns to native byte order via `astype(dtype.newbyteorder(..))`, while
  `read_mat` reads its values array with a bare `np.fromfile`.

Numeric values: Index elements are `Int` (the formats use signed integers),
Real/Scalar elements are `Rat` (exact stand-ins for the floating-point
payload; the codec never computes with them, it only moves them around).
The model fixes the default numeric profile (`precision='double'`,
`scalar='real'`, `indices='32bit'`): integer arithmetic the reader performs
on values read from the file — the grid-size subtraction `n = m - p - 1`,
`abs(descr)`, and `np.cumsum` into the int32 row-pointer array — is numpy
int32 arithmetic and wraps two's-complement (`wrapI`, `absI32`).

Python `assert` failures are mapped to the error taxonomy of the design
document: `badMagic`, `dimOutOfRange`, `invalidDegree`, `invalidGridSize`,
`sizeMismatch`, `shortRead`, `badArgs`; numpy `ValueError`/`TypeError`
raised by `reshape`/`cumsum`/indexing `None` are `valueError`/`typeError`.
-/

namespace Igakit

/-- Decidable equality of `Except` results, used to evaluate the codec on
concrete inputs. -/
instance {ε α : Type} [DecidableEq ε] [DecidableEq α] : DecidableEq (Except ε α) := fun x y =>
  match x, y with
  | .ok a, .ok b =>
    if h : a = b then .isTrue (by rw [h]) else .isFalse (by simp [h])
  | .error a, .error b =>
    if h : a = b then .isTrue (by rw [h]) else .isFalse (by simp [h])
  | .ok _, .error _ => .isFalse (by simp)
  | .error _, .ok _ => .isFalse (by simp)

/-- One typed element on the wire: an Index, a Real (knot values) or a
Scalar (control/vector/matrix payload). -/
inductive WItem where
  | idx (v : Int)
  | real (v : Rat)
  | scl (v : Rat)
deriving DecidableEq, Repr

/-- Error kinds, one per failure site of the Python code (its bare
`assert`s, plus numpy `ValueError` / `TypeError`). -/
inductive Err where
  | shortRead
  | badMagic
  | dimOutOfRange
  | invalidDegree
  | invalidGridSize
  | sizeMismatch
  | badArgs
  | valueError
  | typeError
deriving DecidableEq, Repr

/-- A numpy ndarray: a shape and the flat element data in C (row-major,
last-axis-fastest) order, numpy's default memory layout. -/
structure NDArr where
  shape : List Nat
  data : List Rat
deriving DecidableEq, Repr

/-- The external geometry object as the codec sees it (spec section 6:
`dimension`, `degree`, `knots`, optional `control` of shape `(n_1..n_d, 4)`). -/
structure NURBS where
  degree : List Int
  knots : List (List Rat)
  control : Option NDArr
deriving DecidableEq, Repr

/-- Number of parametric axes (`nurbs.dim`). -/
def NURBS.dim (g : NURBS) : Nat := g.knots.length

/-- Logical grid shape (`nurbs.shape`): the control array shape without its
trailing homogeneous-coordinate axis. -/
def NURBS.shape (g : NURBS) : List Nat :=
  match g.control with
  | some c => c.shape.dropLast
  | none => []

/-- Modelled from the spec: the external NURBS constructor `from(knots,
control)` used by `PetIGA.read` (the `igakit.nurbs` module is outside the
core source).  The degree along each axis is derived from the knot-vector
length and the logical grid size via the glossary identity
`n_i = m_i - p_i - 1`; with no control array the spec leaves the degree
unspecified and we pick `0`. -/
def NURBS.ofKnotsControl (knots : List (List Rat)) (control : Option NDArr) : NURBS :=
  { degree :=
      match control with
      | some c => (knots.zip c.shape.dropLast).map
          (fun uk => (uk.1.length : Int) - (uk.2 : Int) - 1)
      | none => knots.map fun _ => 0
    knots := knots
    control := control }

/-! ## Column-major / row-major index arithmetic

`ravel(order = f)` and `reshape(order = f)` flatten with the FIRST axis
fastest-varying; C order flattens with the LAST axis fastest.  C order over a
shape is exactly F order over the reversed shape. -/

/-- Product of a shape. -/
def prodList : List Nat → Nat
  | [] => 1
  | n :: ns => n * prodList ns

/-- Column-major (Fortran) flatten: first axis fastest. -/
def flattenF : List Nat → List Nat → Nat
  | n :: ns, i :: ix => i + n * flattenF ns ix
  | _, _ => 0

/-- Column-major (Fortran) unflatten. -/
def unflattenF : List Nat → Nat → List Nat
  | [], _ => []
  | n :: ns, k => (k % n) :: unflattenF ns (k / n)

/-- Row-major (C) flatten: last axis fastest, i.e. F order on reversals. -/
def flattenC (ns ix : List Nat) : Nat := flattenF ns.reverse ix.reverse

/-- Row-major (C) unflatten. -/
def unflattenC (ns : List Nat) (k : Nat) : List Nat := (unflattenF ns.reverse k).reverse

/-! ## Control / vector array layout transforms

`write` (io.py lines 67-69): `idx = list(range(nsd)) + [3]`,
`Cw = nurbs.control[..., idx]`, `Cw = np.rollaxis(Cw, -1).ravel(order f)`.
For a C-stored control array of shape `sizes ++ [4]` the wire element at flat
position `k` is the control element at grid index `unflattenF sizes (k / (nsd+1))`
and channel `idx[k % (nsd+1)]`. -/

/-- Wire flattening of the control array (channel axis rolled to the front,
channels `[0..nsd) ++ [3]` kept, Fortran ravel). -/
def controlToWire (sizes : List Nat) (data : List Rat) (nsd : Nat) : List Rat :=
  (List.range ((nsd + 1) * prodList sizes)).map fun k =>
    let ch := k % (nsd + 1)
    let srcCh := if ch = nsd then 3 else ch
    data.getD (srcCh + 4 * flattenC sizes (unflattenF sizes (k / (nsd + 1)))) 0

/-- Reconstruction of the canonical 4-channel control array on read
(io.py lines 137-144): Fortran reshape of the wire data to
`(nsd+1) :: sizes`, roll the channel axis to the end, then copy channels
`[0..nsd)` into spatial slots, zero-fill slots `[nsd..3)`, and copy the
last wire channel into slot 3.  Result stored C-order over `sizes ++ [4]`. -/
def reconData (sizes : List Nat) (nsd : Nat) (cw : List Rat) : List Rat :=
  (List.range (prodList sizes * 4)).map fun j =>
    let ch := j % 4
    if ch < nsd then
      cw.getD (ch + (nsd + 1) * flattenF sizes (unflattenC sizes (j / 4))) 0
    else if ch = 3 then
      cw.getD (nsd + (nsd + 1) * flattenF sizes (unflattenC sizes (j / 4))) 0
    else 0

/-- The reconstructed canonical control array (shape and C-order data). -/
def reconstructControl (sizes : List Nat) (nsd : Nat) (cw : List Rat) : NDArr :=
  { shape := sizes ++ [4], data := reconData sizes nsd cw }

/-- Wire flattening used by `write_vec` with a geometry (io.py lines 156-159):
C-order reshape to `sizes ++ [dof]`, roll the dof axis to the front, Fortran
ravel. -/
def vecToWire (sizes : List Nat) (dof : Nat) (data : List Rat) : List Rat :=
  (List.range (dof * prodList sizes)).map fun k =>
    data.getD ((k % dof) + dof * flattenC sizes (unflattenF sizes (k / dof))) 0

/-- Unflattening used by `read_vec` with a geometry (io.py lines 185-189):
Fortran reshape to `dof :: sizes`, roll the dof axis to the end; result as
C-order data over `sizes ++ [dof]` (`np.ascontiguousarray`). -/
def wireToVec (sizes : List Nat) (dof : Nat) (w : List Rat) : List Rat :=
  (List.range (prodList sizes * dof)).map fun j =>
    w.getD ((j % dof) + dof * flattenF sizes (unflattenC sizes (j / dof))) 0

/-! ## Primitive stream reads (`PetIGA._read`, io.py lines 38-43)

A single-element read (`count=None`) indexes `[0]` into what `np.fromfile`
returns, which raises on an empty or mistyped stream (`shortRead`); an array
read returns however many complete elements of the requested type were
available, exactly like `np.fromfile` with a `count`. -/

/-- Read one Index element. -/
def readI : List WItem → Except Err (Int × List WItem)
  | .idx v :: s => .ok (v, s)
  | _ => .error .shortRead

/-- Read up to `count` Real elements (never fails; short data yields a short
list, as `np.fromfile` does). -/
def readArrR : Nat → List WItem → List Rat × List WItem
  | 0, s => ([], s)
  | Nat.succ k, .real v :: s =>
    let p := readArrR k s
    (v :: p.1, p.2)
  | Nat.succ _, s => ([], s)

/-- Read up to `count` Scalar elements. -/
def readArrS : Nat → List WItem → List Rat × List WItem
  | 0, s => ([], s)
  | Nat.succ k, .scl v :: s =>
    let p := readArrS k s
    (v :: p.1, p.2)
  | Nat.succ _, s => ([], s)

/-- Vector-format magic (`PetIGA.VEC_ID`). -/
def VEC_ID : Int := 1211214

/-- Matrix-format magic (`PetIGA.MAT_ID`). -/
def MAT_ID : Int := 1211216

/-- Geometry-format magic (`PetIGA.IGA_ID`). -/
def IGA_ID : Int := 1211299

/-- Two's-complement wrap into the 32-bit index type of the default profile
(`indices='32bit'`, dtype `>i4`): numpy int32 scalar arithmetic reduces its
result mod `2^32` into `[-2^31, 2^31)` (the literals are `2^31` and `2^32`).
The wire fields themselves are 4-byte values, so every value read from a
file already lies in this range; wrapping is observable in the arithmetic
the reader performs on them. -/
def wrapI (v : Int) : Int := (v + 2147483648) % 4294967296 - 2147483648

/-- numpy `abs` on an int32 scalar: two's-complement negation wraps, so
`abs(-2^31) = -2^31`. -/
def absI32 (v : Int) : Int := wrapI |v|

/-- Wire encoding of the per-axis loop of `write` (io.py lines 81-84): for
each `(degree, knot-vector)` pair write the degree, the knot count and the
knot values. -/
def axesStream : List (Int × List Rat) → List WItem
  | [] => []
  | pu :: rest =>
    WItem.idx pu.1 :: WItem.idx (pu.2.length : Int) ::
      (pu.2.map WItem.real ++ axesStream rest)

/-- The per-axis read loop of `read` (io.py lines 113-122): read the degree
(`invalidDegree` if `< 1`), the knot count `m`, compute `n = m - p - 1` with
numpy int32 arithmetic — the subtraction wraps two's-complement —
(`invalidGridSize` if `n < 2`), then `m` Real knot values (`sizeMismatch` if
short).  Returns the knot vectors, the grid sizes `n_i` and the remaining
stream. -/
def readAxes : Nat → List WItem → Except Err (List (List Rat) × List Int × List WItem)
  | 0, s => .ok ([], [], s)
  | Nat.succ k, s => do
    let (p, s) ← readI s
    if p < 1 then .error .invalidDegree else
    let (m, s) ← readI s
    if wrapI (m - p - 1) < 2 then .error .invalidGridSize else
    let U := readArrR m.toNat s
    if (U.1.length : Int) ≠ m then .error .sizeMismatch else do
      let (Us, ns, rest) ← readAxes k U.2
      .ok (U.1 :: Us, wrapI (m - p - 1) :: ns, rest)

/-- `PetIGA.write` (io.py lines 45-91), as the typed stream it sends to the
file.  The validation (lines 64-74) and the control-array flattening (lines
67-69) happen before the destination file is opened (line 76); an `.error`
result therefore corresponds to a run that never touched the file. -/
def PetIGA.write (nurbs : NURBS) (geometry : Bool) (nsd? : Option Int) :
    Except Err (List WItem) :=
  let dim : Int := nurbs.dim
  if geometry then
    let nsd := nsd?.getD dim
    if ¬(dim ≤ nsd ∧ nsd ≤ 3) then .error .badArgs
    else
      match nurbs.control with
      | none => .error .typeError
      | some ctrl =>
        let Cw := controlToWire ctrl.shape.dropLast ctrl.data nsd.toNat
        .ok ([.idx IGA_ID, .idx 1, .idx dim]
          ++ axesStream (nurbs.degree.zip nurbs.knots)
          ++ [.idx nsd, .idx VEC_ID, .idx (Cw.length : Int)]
          ++ Cw.map WItem.scl)
  else
    if nsd? ≠ none then .error .badArgs
    else .ok ([.idx IGA_ID, .idx 0, .idx dim]
      ++ axesStream (nurbs.degree.zip nurbs.knots))

/-- File-handle events of one `write` call. -/
inductive FEv where
  | openWrite
  | put (w : WItem)
  | close
deriving DecidableEq, Repr

/-- File-system trace of `PetIGA.write`: every failure point of `write`
(the asserts at io.py lines 66 and 72 and the control flattening at lines
67-69) runs before `open(filename, 'wb')` at line 76, so a failing call
produces no file events at all; a successful call opens the file, writes the
stream and closes it. -/
def PetIGA.writeTrace (nurbs : NURBS) (geometry : Bool) (nsd? : Option Int) :
    List FEv :=
  match PetIGA.write nurbs geometry nsd? with
  | .error _ => []
  | .ok ws => FEv.openWrite :: (ws.map FEv.put ++ [FEv.close])

/-- `PetIGA.read` (io.py lines 93-147).  `geometry = abs(descr) >= 1` (line
123) applies numpy's int32 `abs`, which wraps at `-2^31`. -/
def PetIGA.read (s : List WItem) : Except Err NURBS := do
  let (igaId, s) ← readI s
  if igaId ≠ IGA_ID then .error .badMagic else
  let (descr, s) ← readI s
  let (dim, s) ← readI s
  if ¬(1 ≤ dim ∧ dim ≤ 3) then .error .dimOutOfRange else do
  let (knots, sizes, s) ← readAxes dim.toNat s
  if 1 ≤ absI32 descr then do
    let (nsd, s) ← readI s
    if ¬(dim ≤ nsd ∧ nsd ≤ 3) then .error .dimOutOfRange else
    let (vecId, s) ← readI s
    if vecId ≠ VEC_ID then .error .badMagic else
    let (n, s) ← readI s
    let Cw := (readArrS n.toNat s).1
    if (Cw.length : Int) ≠ n then .error .sizeMismatch else
    let sz := sizes.map Int.toNat
    if Cw.length ≠ (nsd.toNat + 1) * prodList sz then .error .valueError else
    .ok (NURBS.ofKnotsControl knots (some (reconstructControl sz nsd.toNat Cw)))
  else
    .ok (NURBS.ofKnotsControl knots none)

/-- `PetIGA.write_vec` (io.py lines 149-167).  With a geometry the data is
reshaped (C order) to the grid shape with an inferred trailing dof axis,
the dof axis rolled to the front and the result Fortran-raveled; numpy's
`-1` inference fails (`ValueError`) unless the grid-size product is positive
and divides the data size. -/
def PetIGA.write_vec (arr : NDArr) (nurbs? : Option NURBS) :
    Except Err (List WItem) :=
  match nurbs? with
  | some nb =>
    let sizes := nb.shape
    let P := prodList sizes
    if 0 < P ∧ P ∣ arr.data.length then
      let A := vecToWire sizes (arr.data.length / P) arr.data
      .ok ([.idx VEC_ID, .idx (A.length : Int)] ++ A.map WItem.scl)
    else .error .valueError
  | none => .ok ([.idx VEC_ID, .idx (arr.data.length : Int)] ++ arr.data.map WItem.scl)

/-- `PetIGA.read_vec` (io.py lines 169-190).  With a geometry the flat data
is Fortran-reshaped to `(dof, n_1..n_d)`, the dof axis rolled to the end and
the array squeezed (`np.squeeze` drops every axis of size 1) and compacted. -/
def PetIGA.read_vec (s : List WItem) (nurbs? : Option NURBS) :
    Except Err NDArr := do
  let (clsid, s) ← readI s
  if clsid ≠ VEC_ID then .error .badMagic else
  let (n, s) ← readI s
  let A := (readArrS n.toNat s).1
  if (A.length : Int) ≠ n then .error .sizeMismatch else
  match nurbs? with
  | some nb =>
    let sizes := nb.shape
    let P := prodList sizes
    if 0 < P ∧ P ∣ A.length then
      let dof := A.length / P
      .ok { shape := (sizes ++ [dof]).filter (fun m => m ≠ 1)
            data := wireToVec sizes dof A }
    else .error .valueError
  | none => .ok { shape := [A.length], data := A }

/-- Running prefix sums starting at 0: `AI[0] = 0`,
`np.cumsum(rownz, out=AI[1:])` (io.py lines 202-205).  The out-array `AI`
has the int32 index dtype, so each partial sum wraps two's-complement. -/
def cumsumFrom0 (l : List Int) : List Int := l.scanl (fun a b => wrapI (a + b)) 0

/-- Grid size of one axis as the signed value `n = m - p - 1` computed by
`read` (io.py line 117). -/
def axisSizeI (pu : Int × List Rat) : Int := (pu.2.length : Int) - pu.1 - 1

/-- Grid size of one axis as a natural number. -/
def axisSize (pu : Int × List Rat) : Nat := (axisSizeI pu).toNat

/-- A well-formed axis: degree at least 1, grid size at least 2
(the invariants `read` checks at io.py lines 115 and 118), and a knot count
that fits the 32-bit index type (`m < 2^31`), so that the axis is
representable on the wire and the reader's int32 computation of
`n = m - p - 1` does not wrap. -/
def goodAxis (pu : Int × List Rat) : Prop :=
  1 ≤ pu.1 ∧ 2 ≤ axisSizeI pu ∧ (pu.2.length : Int) < 2147483648

/-- Grid shape of a geometry, derived from degrees and knot vectors. -/
def sizesOf (g : NURBS) : List Nat := (g.degree.zip g.knots).map axisSize

/-- A geometry the writer can serialize with control data and the reader can
reproduce: dimension between 1 and 3, one degree per knot vector, every axis
well formed, and a control array of shape `(n_1..n_d, 4)` (spec section 3). -/
def validGeom (g : NURBS) (ctrl : NDArr) : Prop :=
  g.control = some ctrl ∧
  1 ≤ g.dim ∧ g.dim ≤ 3 ∧
  g.degree.length = g.knots.length ∧
  (∀ pu ∈ g.degree.zip g.knots, goodAxis pu) ∧
  ctrl.shape = sizesOf g ++ [4] ∧
  ctrl.data.length = prodList (sizesOf g) * 4

instance (pu : Int × List Rat) : Decidable (goodAxis pu) := by
  unfold goodAxis
  infer_instance

instance (g : NURBS) (ctrl : NDArr) : Decidable (validGeom g ctrl) := by
  unfold validGeom
  infer_instance

/-! ## Byte-level primitive model

The typed-stream model above abstracts over byte order.  To reason about the
byte-order contract we model the primitive reads on raw byte lists: every
on-disk element is a group of `w` bytes in most-significant-byte-first wire
order, `np.fromfile` with a big-endian dtype returns an array still tagged
with the wire byte order, and `astype(dtype.newbyteorder(native))` — applied
by `PetIGA._read`, io.py line 43 — retags it as native without changing any
numeric value. -/

/-- Byte order of an in-memory numpy array. -/
inductive ByteOrder where
  | wire
  | native
deriving DecidableEq, Repr

/-- A numpy array as returned by the byte-level reads: its dtype byte order
and its numeric element values. -/
structure NpArray where
  order : ByteOrder
  vals : List Int
deriving DecidableEq, Repr

/-- Big-endian (most-significant-byte-first) interpretation of a byte
group. -/
def beDecode (bs : List Nat) : Nat := bs.foldl (fun a b => 256 * a + b % 256) 0

/-- Two's-complement signed reinterpretation of a `w`-byte unsigned value. -/
def toSigned (w : Nat) (v : Nat) : Int :=
  if v < 2 ^ (8 * w - 1) then (v : Int) else (v : Int) - 2 ^ (8 * w)

/-- Split off up to `count` complete groups of `w` bytes (a trailing partial
group is not an element, matching `np.fromfile`). -/
def takeGroups (w : Nat) : Nat → List Nat → List (List Nat) × List Nat
  | 0, bs => ([], bs)
  | Nat.succ k, bs =>
    if w = 0 ∨ bs.length < w then ([], bs)
    else
      let p := takeGroups w k (bs.drop w)
      (bs.take w :: p.1, p.2)

/-- `np.fromfile` with a big-endian signed-integer dtype of width `w`: up to
`count` complete elements, decoded MSB-first; the result keeps the dtype's
wire byte order. -/
def fromfileI (w count : Nat) (bs : List Nat) : NpArray × List Nat :=
  let p := takeGroups w count bs
  ({ order := .wire, vals := p.1.map fun g => toSigned w (beDecode g) }, p.2)

/-- `np.fromfile` with a big-endian floating dtype of width `w`; element
values stand for their decoded big-endian bit patterns. -/
def fromfileS (w count : Nat) (bs : List Nat) : NpArray × List Nat :=
  let p := takeGroups w count bs
  ({ order := .wire, vals := p.1.map fun g => (beDecode g : Int) }, p.2)

/-- `array.astype(dtype.newbyteorder(native))`: byte-order conversion keeps
every numeric value and retags the array as native-ordered. -/
def astypeNative (a : NpArray) : NpArray := { order := .native, vals := a.vals }

/-- `PetIGA._read` with a count on an index dtype (io.py lines 42-43):
`np.fromfile` followed by conversion to native byte order. -/
def readBI (w count : Nat) (bs : List Nat) : NpArray × List Nat :=
  let p := fromfileI w count bs
  (astypeNative p.1, p.2)

/-- `PetIGA._read` with `count=None` on an index dtype (io.py lines 40, 43):
`np.fromfile(fid, dtype, 1)[0]`, which raises on an empty stream, followed by
byte-order conversion. -/
def readB1I (w : Nat) (bs : List Nat) : Except Err (Int × List Nat) :=
  let p := readBI w 1 bs
  match p.1.vals with
  | [v] => .ok (v, p.2)
  | _ => .error .shortRead

/-- `PetIGA.read_mat` (io.py lines 192-213) at byte level, with index width
`iw` and scalar width `sw`.  The magic, the `M, N, nz` header, the per-row
counts and the column indices all go through `_read` and come back in native
byte order (`AI` is built in memory with `M`'s native dtype, io.py line 202);
the values array is read with a bare `np.fromfile(fh, S, nz)` (io.py line
209) and keeps the wire byte order. -/
def readMatB (iw sw : Nat) (bs : List Nat) :
    Except Err ((Int × Int) × (NpArray × NpArray × NpArray)) := do
  let (clsid, bs) ← readB1I iw bs
  if clsid ≠ MAT_ID then .error .badMagic else
  let hdr := readBI iw 3 bs
  match hdr.1.vals with
  | [M, N, nz] =>
    if M < 0 then .error .valueError else
    let rz := readBI iw M.toNat hdr.2
    if (rz.1.vals.length : Int) ≠ M then .error .valueError else
    let AI : NpArray := { order := .native, vals := cumsumFrom0 rz.1.vals }
    if AI.vals.getLast? ≠ some nz then .error .sizeMismatch else
    let aj := readBI iw nz.toNat rz.2
    if (aj.1.vals.length : Int) ≠ nz then .error .sizeMismatch else
    let av := fromfileS sw nz.toNat aj.2
    if (av.1.vals.length : Int) ≠ nz then .error .sizeMismatch else
    .ok ((M, N), (AI, aj.1, av.1))
  | _ => .error .shortRead

/-! ## Concrete data used in witnesses and counterexamples -/

/-- A concrete valid 1-dimensional geometry: degree 1, knot vector
`[0,0,1,1]` (grid size 2), control points `(10,1)` and `(20,1)` with the
unused spatial channels zero. -/
def wCtrl : NDArr := { shape := [2, 4], data := [10, 0, 0, 1, 20, 0, 0, 1] }

/-- The geometry owning `wCtrl`. -/
def wGeom : NURBS :=
  { degree := [1], knots := [[0, 0, 1, 1]], control := some wCtrl }

/-- A concrete data array for the vector round-trip witness: grid size 2,
two degrees of freedom. -/
def wArr : NDArr := { shape := [2, 2], data := [1, 2, 3, 4] }

/-- A variant of `wCtrl` with a nonzero second spatial channel, for the
embedding witness. -/
def wCtrl2 : NDArr := { shape := [2, 4], data := [10, 5, 0, 1, 20, 6, 0, 1] }

/-- The geometry owning `wCtrl2`. -/
def wGeom2 : NURBS :=
  { degree := [1], knots := [[0, 0, 1, 1]], control := some wCtrl2 }

/-- Byte encoding (32-bit big-endian indices, 64-bit big-endian scalars) of a
1x1 sparse matrix with one nonzero: the matrix magic 1211216 is
`[0, 18, 123, 80]`, then `M = N = nz = 1`, one per-row count 1, one column
index 0 and one 8-byte value 7. -/
def matBytes : List Nat :=
  [0, 18, 123, 80, 0, 0, 0, 1, 0, 0, 0, 1, 0, 0, 0, 1,
   0, 0, 0, 1, 0, 0, 0, 0, 0, 0, 0, 0, 0, 0, 0, 7]

/-! ## Index arithmetic lemmas -/

theorem prodList_append (a b : List Nat) :
    prodList (a ++ b) = prodList a * prodList b := by
  induction a with
  | nil => simp [prodList]
  | cons n t ih => simp [prodList, ih, Nat.mul_assoc]

theorem prodList_reverse (ns : List Nat) : prodList ns.reverse = prodList ns := by
  induction ns with
  | nil => rfl
  | cons n t ih =>
    simp [List.reverse_cons, prodList_append, prodList, ih, Nat.mul_comm]

/-- A shape with every entry at least 2 has positive product. -/
theorem prodList_pos (ns : List Nat) (h : ∀ n ∈ ns, 2 ≤ n) : 0 < prodList ns := by
  induction ns with
  | nil => simp [prodList]
  | cons n t ih =>
    have h1 := h n (List.mem_cons_self n t)
    have h2 := ih (fun m hm => h m (List.mem_cons_of_mem n hm))
    simp only [prodList]
    exact Nat.mul_pos (by omega) h2

theorem flattenF_unflattenF (ns : List Nat) (k : Nat) (h : k < prodList ns) :
    flattenF ns (unflattenF ns k) = k := by
  induction ns generalizing k with
  | nil =>
    simp only [unflattenF, flattenF]
    simp only [prodList] at h
    omega
  | cons n t ih =>
    have hn : 0 < n := by
      rcases Nat.eq_zero_or_pos n with h0 | h0
      · subst h0; simp [prodList] at h
      · exact h0
    have hk : k / n < prodList t := by
      rw [Nat.div_lt_iff_lt_mul hn, Nat.mul_comm]
      simpa [prodList] using h
    simp only [unflattenF, flattenF, ih _ hk]
    exact Nat.mod_add_div k n

theorem unflattenF_valid (ns : List Nat) (k : Nat) (h : k < prodList ns) :
    List.Forall₂ (· < ·) (unflattenF ns k) ns := by
  induction ns generalizing k with
  | nil => exact List.Forall₂.nil
  | cons n t ih =>
    have hn : 0 < n := by
      rcases Nat.eq_zero_or_pos n with h0 | h0
      · subst h0; simp [prodList] at h
      · exact h0
    have hk : k / n < prodList t := by
      rw [Nat.div_lt_iff_lt_mul hn, Nat.mul_comm]
      simpa [prodList] using h
    exact List.Forall₂.cons (Nat.mod_lt _ hn) (ih _ hk)

theorem unflattenF_flattenF (ns ix : List Nat) (h : List.Forall₂ (· < ·) ix ns) :
    unflattenF ns (flattenF ns ix) = ix := by
  induction h with
  | nil => rfl
  | @cons i n ix t hin _ ih =>
    have hn : 0 < n := Nat.lt_of_le_of_lt (Nat.zero_le _) hin
    simp only [flattenF, unflattenF]
    have h1 : (i + n * flattenF t ix) % n = i := by
      rw [Nat.add_mul_mod_self_left, Nat.mod_eq_of_lt hin]
    have h2 : (i + n * flattenF t ix) / n = flattenF t ix := by
      rw [Nat.add_mul_div_left _ _ hn, Nat.div_eq_of_lt hin, Nat.zero_add]
    rw [h1, h2, ih]

theorem flattenF_lt (ns ix : List Nat) (h : List.Forall₂ (· < ·) ix ns) :
    flattenF ns ix < prodList ns := by
  induction h with
  | nil => simp [flattenF, prodList]
  | @cons i n ix t hin htl ih =>
    simp only [flattenF, prodList]
    calc i + n * flattenF t ix
        ≤ i + n * (prodList t - 1) := by
          have := Nat.le_sub_one_of_lt ih
          exact Nat.add_le_add_left (Nat.mul_le_mul_left _ this) _
      _ < n * prodList t := by
          have hp : 1 ≤ prodList t := Nat.one_le_iff_ne_zero.mpr (by
            intro h0
            rw [h0] at ih
            omega)
          have h1 : n * (prodList t - 1) + n * 1 = n * prodList t := by
            rw [← Nat.mul_add]
            congr 1
            omega
          omega

theorem flattenC_unflattenC (ns : List Nat) (k : Nat) (h : k < prodList ns) :
    flattenC ns (unflattenC ns k) = k := by
  unfold flattenC unflattenC
  rw [List.reverse_reverse]
  exact flattenF_unflattenF _ _ (by rwa [prodList_reverse])

theorem unflattenC_valid (ns : List Nat) (k : Nat) (h : k < prodList ns) :
    List.Forall₂ (· < ·) (unflattenC ns k) ns := by
  unfold unflattenC
  have := unflattenF_valid ns.reverse k (by rwa [prodList_reverse])
  have h2 := List.rel_reverse (R := (· < · : Nat → Nat → Prop)) this
  rwa [List.reverse_reverse] at h2

/-! ## Parsing lemmas -/

theorem readArrR_exact (U : List Rat) (rest : List WItem) :
    readArrR U.length (U.map WItem.real ++ rest) = (U, rest) := by
  induction U with
  | nil => rfl
  | cons v t ih => simp [readArrR, ih]

theorem readArrS_exact (U : List Rat) (rest : List WItem) :
    readArrS U.length (U.map WItem.scl ++ rest) = (U, rest) := by
  induction U with
  | nil => rfl
  | cons v t ih => simp [readArrS, ih]

theorem axesStream_append (a b : List (Int × List Rat)) :
    axesStream (a ++ b) = axesStream a ++ axesStream b := by
  induction a with
  | nil => rfl
  | cons pu t ih => simp [axesStream, ih]

/-- An int32-range value is a fixed point of the wrap. -/
theorem wrapI_eq_self (v : Int) (h1 : -2147483648 ≤ v) (h2 : v < 2147483648) :
    wrapI v = v := by
  unfold wrapI
  omega

/-- Running the axis loop over `a.length + t` axes on a stream that starts
with the encoding of the well-formed axes `a` first consumes `a` and then
behaves like the loop over the remaining `t` axes. -/
theorem readAxes_split (a : List (Int × List Rat)) (t : Nat) (rest : List WItem)
    (h : ∀ pu ∈ a, goodAxis pu) :
    readAxes (a.length + t) (axesStream a ++ rest) =
      (readAxes t rest).map
        (fun x => (a.map Prod.snd ++ x.1, a.map axisSizeI ++ x.2.1, x.2.2)) := by
  induction a with
  | nil =>
    simp only [List.length_nil, Nat.zero_add, axesStream, List.nil_append, List.map_nil]
    cases hr : readAxes t rest with
    | ok x => simp [Except.map]
    | error e => simp [Except.map]
  | cons pu a ih =>
    obtain ⟨hp, hn, hb⟩ := h pu (List.mem_cons_self pu a)
    have hrest : ∀ q ∈ a, goodAxis q := fun q hq => h q (List.mem_cons_of_mem pu hq)
    have hsz : 2 ≤ (pu.2.length : Int) - pu.1 - 1 := hn
    have hw : wrapI ((pu.2.length : Int) - pu.1 - 1) = (pu.2.length : Int) - pu.1 - 1 :=
      wrapI_eq_self _ (by omega) (by omega)
    simp only [List.length_cons, axesStream, List.cons_append]
    have hcnt : a.length + 1 + t = (a.length + t) + 1 := by omega
    rw [hcnt]
    simp only [readAxes, readI, bind, Except.bind]
    rw [if_neg (by omega), if_neg (by rw [hw]; omega)]
    rw [Int.toNat_natCast, List.append_assoc, readArrR_exact]
    simp only []
    rw [if_neg (by simp)]
    rw [ih hrest]
    cases hr : readAxes t rest with
    | ok x => simp [Except.map, axisSizeI, hw]
    | error e => simp [Except.map]

/-- The axis loop over exactly the encoding of well-formed axes `a`. -/
theorem readAxes_exact (a : List (Int × List Rat)) (rest : List WItem)
    (h : ∀ pu ∈ a, goodAxis pu) :
    readAxes a.length (axesStream a ++ rest) =
      .ok (a.map Prod.snd, a.map axisSizeI, rest) := by
  have := readAxes_split a 0 rest h
  simpa [readAxes, Except.map] using this

/-! ## Control-array layout lemmas -/

theorem controlToWire_length (sizes : List Nat) (data : List Rat) (nsd : Nat) :
    (controlToWire sizes data nsd).length = (nsd + 1) * prodList sizes := by
  simp [controlToWire]

theorem reconData_length (sizes : List Nat) (nsd : Nat) (cw : List Rat) :
    (reconData sizes nsd cw).length = prodList sizes * 4 := by
  simp [reconData]

/-- One element of the write-then-read control pipeline: channel `ch` at grid
position `gC` comes back unchanged when `ch < nsd` or `ch = 3`, and is
zero-filled otherwise. -/
theorem reconData_controlToWire_getD (sizes : List Nat) (nsd : Nat) (data : List Rat)
    (gC ch : Nat) (hg : gC < prodList sizes) (hch : ch < 4) :
    (reconData sizes nsd (controlToWire sizes data nsd)).getD (ch + 4 * gC) 0 =
      if ch < nsd ∨ ch = 3 then data.getD (ch + 4 * gC) 0 else 0 := by
  have hgrid := unflattenC_valid sizes gC hg
  have hq : flattenF sizes (unflattenC sizes gC) < prodList sizes := flattenF_lt _ _ hgrid
  have hj : ch + 4 * gC < prodList sizes * 4 := by omega
  rw [List.getD_eq_getElem _ _ (by rw [reconData_length]; exact hj)]
  simp only [reconData, List.getElem_map, List.getElem_range]
  have hmod : (ch + 4 * gC) % 4 = ch := by
    rw [Nat.add_mul_mod_self_left, Nat.mod_eq_of_lt hch]
  have hdiv : (ch + 4 * gC) / 4 = gC := by
    rw [Nat.add_mul_div_left _ _ (by omega : 0 < 4), Nat.div_eq_of_lt hch, Nat.zero_add]
  simp only [hmod, hdiv]
  have hmul : (nsd + 1) * (flattenF sizes (unflattenC sizes gC) + 1)
      ≤ (nsd + 1) * prodList sizes := Nat.mul_le_mul_left _ hq
  have hexp : (nsd + 1) * (flattenF sizes (unflattenC sizes gC) + 1)
      = (nsd + 1) * flattenF sizes (unflattenC sizes gC) + (nsd + 1) := by ring
  by_cases h1 : ch < nsd
  · rw [if_pos h1, if_pos (Or.inl h1)]
    have hk : ch + (nsd + 1) * flattenF sizes (unflattenC sizes gC)
        < (nsd + 1) * prodList sizes := by omega
    rw [List.getD_eq_getElem _ _ (by rw [controlToWire_length]; exact hk)]
    simp only [controlToWire, List.getElem_map, List.getElem_range]
    have hmodk : (ch + (nsd + 1) * flattenF sizes (unflattenC sizes gC)) % (nsd + 1) = ch := by
      rw [Nat.add_mul_mod_self_left, Nat.mod_eq_of_lt (by omega)]
    have hdivk : (ch + (nsd + 1) * flattenF sizes (unflattenC sizes gC)) / (nsd + 1)
        = flattenF sizes (unflattenC sizes gC) := by
      rw [Nat.add_mul_div_left _ _ (by omega : 0 < nsd + 1),
        Nat.div_eq_of_lt (by omega), Nat.zero_add]
    simp only [hmodk, hdivk]
    rw [if_neg (Nat.ne_of_lt h1), unflattenF_flattenF _ _ hgrid,
      flattenC_unflattenC _ _ hg]
  · by_cases h2 : ch = 3
    · rw [if_neg h1, if_pos h2, if_pos (Or.inr h2)]
      have hk : nsd + (nsd + 1) * flattenF sizes (unflattenC sizes gC)
          < (nsd + 1) * prodList sizes := by omega
      rw [List.getD_eq_getElem _ _ (by rw [controlToWire_length]; exact hk)]
      simp only [controlToWire, List.getElem_map, List.getElem_range]
      have hmodk : (nsd + (nsd + 1) * flattenF sizes (unflattenC sizes gC)) % (nsd + 1)
          = nsd := by
        rw [Nat.add_mul_mod_self_left, Nat.mod_eq_of_lt (by omega)]
      have hdivk : (nsd + (nsd + 1) * flattenF sizes (unflattenC sizes gC)) / (nsd + 1)
          = flattenF sizes (unflattenC sizes gC) := by
        rw [Nat.add_mul_div_left _ _ (by omega : 0 < nsd + 1),
          Nat.div_eq_of_lt (by omega), Nat.zero_add]
      simp only [hmodk, hdivk, if_true]
      rw [unflattenF_flattenF _ _ hgrid, flattenC_unflattenC _ _ hg, h2]
    · rw [if_neg h1, if_neg h2, if_neg (by simp only [not_or]; exact ⟨h1, h2⟩)]

/-- Writing the control array with `nsd` kept channels and reconstructing it
returns the original data exactly, provided the dropped spatial channels
`[nsd, 3)` were zero. -/
theorem reconData_roundtrip (sizes : List Nat) (nsd : Nat) (data : List Rat)
    (hlen : data.length = prodList sizes * 4)
    (hzero : ∀ gC ch, gC < prodList sizes → nsd ≤ ch → ch < 3 →
      data.getD (ch + 4 * gC) 0 = 0) :
    reconData sizes nsd (controlToWire sizes data nsd) = data := by
  apply List.ext_getElem
  · rw [reconData_length, hlen]
  · intro j h1 h2
    have hj : j < prodList sizes * 4 := by
      rw [reconData_length] at h1
      exact h1
    have hch : j % 4 < 4 := Nat.mod_lt _ (by omega)
    have hgC : j / 4 < prodList sizes := by
      rw [Nat.div_lt_iff_lt_mul (by omega : 0 < 4)]
      omega
    have hsplit : j % 4 + 4 * (j / 4) = j := by omega
    have key := reconData_controlToWire_getD sizes nsd data (j / 4) (j % 4) hgC hch
    rw [hsplit] at key
    rw [List.getD_eq_getElem _ _ h1] at key
    rw [key]
    by_cases hc : j % 4 < nsd ∨ j % 4 = 3
    · rw [if_pos hc, List.getD_eq_getElem _ _ h2]
    · push_neg at hc
      rw [if_neg (by push_neg; exact hc)]
      have hz := hzero (j / 4) (j % 4) hgC hc.1 (by omega)
      rw [hsplit, List.getD_eq_getElem _ _ h2] at hz
      exact hz.symm

/-! ## Vector layout lemmas -/

theorem vecToWire_length (sizes : List Nat) (dof : Nat) (data : List Rat) :
    (vecToWire sizes dof data).length = dof * prodList sizes := by
  simp [vecToWire]

theorem wireToVec_length (sizes : List Nat) (dof : Nat) (w : List Rat) :
    (wireToVec sizes dof w).length = prodList sizes * dof := by
  simp [wireToVec]

/-- The vector layout transform of `write_vec` is undone exactly by the one
of `read_vec`. -/
theorem wireToVec_vecToWire (sizes : List Nat) (dof : Nat) (data : List Rat)
    (hlen : data.length = dof * prodList sizes) :
    wireToVec sizes dof (vecToWire sizes dof data) = data := by
  apply List.ext_getElem
  · rw [wireToVec_length, hlen, Nat.mul_comm]
  · intro j h1 h2
    have hj : j < prodList sizes * dof := by
      rw [wireToVec_length] at h1
      exact h1
    have hdof : 0 < dof := by
      rcases Nat.eq_zero_or_pos dof with h0 | h0
      · rw [h0] at hj; omega
      · exact h0
    have hc : j % dof < dof := Nat.mod_lt _ hdof
    have hgC : j / dof < prodList sizes := by
      rw [Nat.div_lt_iff_lt_mul hdof]
      omega
    have hgrid := unflattenC_valid sizes (j / dof) hgC
    have hq : flattenF sizes (unflattenC sizes (j / dof)) < prodList sizes :=
      flattenF_lt _ _ hgrid
    have hsplit : j % dof + dof * (j / dof) = j := Nat.mod_add_div j dof
    simp only [wireToVec, List.getElem_map, List.getElem_range]
    have hmul : dof * (flattenF sizes (unflattenC sizes (j / dof)) + 1)
        ≤ dof * prodList sizes := Nat.mul_le_mul_left _ hq
    have hexp : dof * (flattenF sizes (unflattenC sizes (j / dof)) + 1)
        = dof * flattenF sizes (unflattenC sizes (j / dof)) + dof := by ring
    have hk : j % dof + dof * flattenF sizes (unflattenC sizes (j / dof))
        < dof * prodList sizes := by
      calc j % dof + dof * flattenF sizes (unflattenC sizes (j / dof))
          < dof + dof * flattenF sizes (unflattenC sizes (j / dof)) :=
            Nat.add_lt_add_right hc _
        _ = dof * (flattenF sizes (unflattenC sizes (j / dof)) + 1) := by ring
        _ ≤ dof * prodList sizes := Nat.mul_le_mul_left _ hq
    rw [List.getD_eq_getElem _ _ (by rw [vecToWire_length]; exact hk)]
    simp only [vecToWire, List.getElem_map, List.getElem_range]
    have hmodk : (j % dof + dof * flattenF sizes (unflattenC sizes (j / dof))) % dof
        = j % dof := by
      rw [Nat.add_mul_mod_self_left, Nat.mod_mod_of_dvd _ (dvd_refl dof)]
    have hdivk : (j % dof + dof * flattenF sizes (unflattenC sizes (j / dof))) / dof
        = flattenF sizes (unflattenC sizes (j / dof)) := by
      rw [Nat.add_mul_div_left _ _ hdof, Nat.div_eq_of_lt hc, Nat.zero_add]
    simp only [hmodk, hdivk]
    rw [unflattenF_flattenF _ _ hgrid, flattenC_unflattenC _ _ hgC]
    rw [hsplit, List.getD_eq_getElem _ _ h2]

/-! ## Whole-file read lemmas -/

/-- Reading a well-formed geometry stream with control data: any descriptor
whose int32 `abs` is at least 1 makes the reader consume the control section
and return a geometry built from the parsed knots and the reconstructed
control array; trailing stream content is ignored. -/
theorem read_geometry_stream (descr dimI : Int) (axes : List (Int × List Rat))
    (nsd : Int) (Cw : List Rat) (rest : List WItem)
    (hdescr : 1 ≤ absI32 descr)
    (hd1 : 1 ≤ dimI) (hd3 : dimI ≤ 3)
    (hax : ∀ pu ∈ axes, goodAxis pu)
    (haxlen : axes.length = dimI.toNat)
    (hnsd1 : dimI ≤ nsd) (hnsd3 : nsd ≤ 3)
    (hcw : Cw.length = (nsd.toNat + 1) * prodList (axes.map axisSize)) :
    PetIGA.read ([.idx IGA_ID, .idx descr, .idx dimI] ++ axesStream axes
        ++ [.idx nsd, .idx VEC_ID, .idx (Cw.length : Int)] ++ Cw.map WItem.scl ++ rest)
      = .ok (NURBS.ofKnotsControl (axes.map Prod.snd)
          (some (reconstructControl (axes.map axisSize) nsd.toNat Cw))) := by
  have hcomp : (axes.map axisSizeI).map Int.toNat = axes.map axisSize := by
    rw [List.map_map]
    rfl
  simp only [List.cons_append, List.append_assoc, List.nil_append]
  simp only [PetIGA.read, readI, bind, Except.bind]
  rw [if_neg (by simp)]
  rw [if_neg (not_not_intro ⟨hd1, hd3⟩)]
  rw [← haxlen, readAxes_exact _ _ hax]
  simp only []
  rw [if_pos hdescr]
  rw [if_neg (not_not_intro ⟨hnsd1, hnsd3⟩)]
  rw [if_neg (by simp)]
  rw [Int.toNat_natCast, readArrS_exact]
  simp only []
  rw [if_neg (by simp)]
  rw [hcomp]
  rw [if_neg (not_not_intro hcw)]

/-- Reading a stream whose descriptor has int32 `abs` below 1 (descriptor 0,
or `-2^31`, whose int32 `abs` wraps to itself): the reader stops after the
axes and returns a geometry with no control array, ignoring any trailing
content. -/
theorem read_topology_stream (descr dimI : Int) (axes : List (Int × List Rat))
    (rest : List WItem)
    (hdescr : ¬ 1 ≤ absI32 descr)
    (hd1 : 1 ≤ dimI) (hd3 : dimI ≤ 3)
    (hax : ∀ pu ∈ axes, goodAxis pu)
    (haxlen : axes.length = dimI.toNat) :
    PetIGA.read ([.idx IGA_ID, .idx descr, .idx dimI] ++ axesStream axes ++ rest)
      = .ok (NURBS.ofKnotsControl (axes.map Prod.snd) none) := by
  simp only [List.cons_append, List.append_assoc, List.nil_append]
  simp only [PetIGA.read, readI, bind, Except.bind]
  rw [if_neg (by simp)]
  rw [if_neg (not_not_intro ⟨hd1, hd3⟩)]
  rw [← haxlen, readAxes_exact _ _ hax]
  simp only []
  rw [if_neg hdescr]

/-- Writing a valid geometry with control data and any admissible `nsd` and
reading the file back succeeds and produces the reconstructed control
array. -/
theorem writeRead_ok (g : NURBS) (ctrl : NDArr) (nsd : Int)
    (hv : validGeom g ctrl)
    (hnsd1 : (g.dim : Int) ≤ nsd) (hnsd3 : nsd ≤ 3) :
    (PetIGA.write g true (some nsd) >>= PetIGA.read)
      = .ok (NURBS.ofKnotsControl g.knots
        (some (reconstructControl (sizesOf g) nsd.toNat
          (controlToWire (sizesOf g) ctrl.data nsd.toNat)))) := by
  obtain ⟨hc, hd1, hd3, hlen, hax, hshape, hdata⟩ := hv
  have haxlen : (g.degree.zip g.knots).length = ((g.dim : Int)).toNat := by
    rw [List.length_zip, hlen, Int.toNat_natCast]
    simp [NURBS.dim]
  have hsnd : (g.degree.zip g.knots).map Prod.snd = g.knots :=
    List.map_snd_zip _ _ (le_of_eq hlen.symm)
  have hdrop : ctrl.shape.dropLast = sizesOf g := by
    rw [hshape, List.dropLast_concat]
  simp only [PetIGA.write, Option.getD_some, if_true]
  rw [if_neg (not_not_intro ⟨hnsd1, hnsd3⟩), hc]
  simp only [bind, Except.bind, hdrop]
  have key := read_geometry_stream 1 (g.dim : Int) (g.degree.zip g.knots) nsd
    (controlToWire (sizesOf g) ctrl.data nsd.toNat) []
    (by decide)
    (by exact_mod_cast hd1) (by exact_mod_cast hd3)
    hax haxlen hnsd1 hnsd3
    (by rw [controlToWire_length]; rfl)
  simp only [List.append_nil, hsnd, sizesOf] at key
  simp only [sizesOf]
  exact key

/-! ## Recovering the geometry fields from a read -/

/-- The degree list the modelled NURBS constructor infers from the knots and
the grid shape equals the original degree list, axis by axis. -/
theorem degree_recover (D : List Int) (K : List (List Rat))
    (hlen : D.length = K.length)
    (hax : ∀ pu ∈ D.zip K, goodAxis pu) :
    (K.zip ((D.zip K).map axisSize)).map
        (fun uk => (uk.1.length : Int) - (uk.2 : Int) - 1) = D := by
  induction D generalizing K with
  | nil =>
    cases K with
    | nil => rfl
    | cons U K => simp at hlen
  | cons p D ih =>
    cases K with
    | nil => simp at hlen
    | cons U K =>
      have hgood := hax (p, U) (by simp [List.zip_cons_cons])
      have hrest : ∀ pu ∈ D.zip K, goodAxis pu := fun pu hpu =>
        hax pu (by simp [List.zip_cons_cons, hpu])
      obtain ⟨hp, hn, -⟩ := hgood
      simp only [List.zip_cons_cons, List.map_cons]
      congr 1
      · unfold axisSizeI at hn
        unfold axisSize axisSizeI
        dsimp only at hn ⊢
        have hnn := Int.toNat_of_nonneg (by omega : (0 : Int) ≤ (U.length : Int) - p - 1)
        omega
      · exact ih K (by simpa using hlen) hrest

/-- The modelled NURBS constructor applied to the original knots and any
control array with the right shape reproduces the original degree list. -/
theorem ofKnotsControl_degree (g : NURBS) (ctrl : NDArr) (hv : validGeom g ctrl)
    (c : NDArr) (hcshape : c.shape = sizesOf g ++ [4]) :
    NURBS.ofKnotsControl g.knots (some c)
      = { degree := g.degree, knots := g.knots, control := some c } := by
  obtain ⟨hc, hd1, hd3, hlen, hax, hshape, hdata⟩ := hv
  have hdeg : (g.knots.zip c.shape.dropLast).map
      (fun uk => (uk.1.length : Int) - (uk.2 : Int) - 1) = g.degree := by
    rw [hcshape, List.dropLast_concat]
    exact degree_recover g.degree g.knots hlen hax
  simp only [NURBS.ofKnotsControl]
  rw [hdeg]

/-- The modelled NURBS constructor applied to the knots and control array of
a valid geometry reproduces that geometry. -/
theorem ofKnotsControl_valid (g : NURBS) (ctrl : NDArr) (hv : validGeom g ctrl) :
    NURBS.ofKnotsControl g.knots (some ctrl) = g := by
  rw [ofKnotsControl_degree g ctrl hv ctrl hv.2.2.2.2.2.1]
  have hc := hv.1
  cases g with
  | mk degree knots control => simp only at hc ⊢; rw [hc]

/-! ## Error-path lemmas -/

/-- A knot-value array read that hits the end of the stream returns only the
available values (`np.fromfile` semantics). -/
theorem readArrR_short (V : List Rat) (count : Nat) (h : V.length < count) :
    readArrR count (V.map WItem.real) = (V, []) := by
  induction V generalizing count with
  | nil =>
    cases count with
    | zero => omega
    | succ k => rfl
  | cons v t ih =>
    cases count with
    | zero => omega
    | succ k =>
      have := ih k (by simpa using h)
      simp [readArrR, this]

/-- A wrong leading magic word makes `read` fail with `badMagic`. -/
theorem read_badMagic (v : Int) (s : List WItem) (hv : v ≠ IGA_ID) :
    PetIGA.read (.idx v :: s) = .error .badMagic := by
  simp only [PetIGA.read, readI, bind, Except.bind]
  rw [if_pos hv]

/-- A dimension outside `1..3` makes `read` fail with `dimOutOfRange`. -/
theorem read_dimOutOfRange (descr dimI : Int) (s : List WItem)
    (h : ¬(1 ≤ dimI ∧ dimI ≤ 3)) :
    PetIGA.read (.idx IGA_ID :: .idx descr :: .idx dimI :: s)
      = .error .dimOutOfRange := by
  simp only [PetIGA.read, readI, bind, Except.bind]
  rw [if_neg (by simp), if_pos h]

theorem readAxes_invalidDegree (k : Nat) (p : Int) (s : List WItem) (hp : p < 1) :
    readAxes (k + 1) (.idx p :: s) = .error .invalidDegree := by
  simp only [readAxes, readI, bind, Except.bind]
  rw [if_pos hp]

theorem readAxes_invalidGridSize (k : Nat) (p m : Int) (s : List WItem)
    (hp : 1 ≤ p) (hm : wrapI (m - p - 1) < 2) :
    readAxes (k + 1) (.idx p :: .idx m :: s) = .error .invalidGridSize := by
  simp only [readAxes, readI, bind, Except.bind]
  rw [if_neg (by omega), if_pos hm]

/-- A knot vector truncated before its declared count makes the axis loop
fail with `sizeMismatch`. -/
theorem readAxes_truncKnots (k : Nat) (p m : Int) (V : List Rat)
    (hp : 1 ≤ p) (hm : 2 ≤ m - p - 1) (hmb : m - p - 1 < 2147483648)
    (hv : (V.length : Int) < m) :
    readAxes (k + 1) (.idx p :: .idx m :: V.map WItem.real)
      = .error .sizeMismatch := by
  have hw : wrapI (m - p - 1) = m - p - 1 := wrapI_eq_self _ (by omega) (by omega)
  simp only [readAxes, readI, bind, Except.bind]
  rw [if_neg (by omega), if_neg (by rw [hw]; omega)]
  rw [readArrR_short V m.toNat (by omega)]
  simp only []
  rw [if_pos (by omega)]

/-- An axis-loop failure after some well-formed axes propagates to `read`. -/
theorem read_axesError (descr dimI : Int) (good : List (Int × List Rat))
    (tail : List WItem) (e : Err)
    (hd1 : 1 ≤ dimI) (hd3 : dimI ≤ 3)
    (hgood : ∀ pu ∈ good, goodAxis pu)
    (hglen : good.length < dimI.toNat)
    (he : readAxes (dimI.toNat - good.length) tail = .error e) :
    PetIGA.read ([.idx IGA_ID, .idx descr, .idx dimI] ++ axesStream good ++ tail)
      = .error e := by
  simp only [List.cons_append, List.append_assoc, List.nil_append]
  simp only [PetIGA.read, readI, bind, Except.bind]
  rw [if_neg (by simp), if_neg (not_not_intro ⟨hd1, hd3⟩)]
  have hsplit : dimI.toNat = good.length + (dimI.toNat - good.length) := by omega
  rw [hsplit, readAxes_split good _ _ hgood, he]
  rfl

/-- Invalid `nsd` bounds with control data included: `write` fails before
touching the file. -/
theorem write_badArgs_geom (g : NURBS) (nsd : Int)
    (h : ¬((g.dim : Int) ≤ nsd ∧ nsd ≤ 3)) :
    PetIGA.write g true (some nsd) = .error .badArgs := by
  simp only [PetIGA.write, Option.getD_some, if_true]
  rw [if_pos h]

/-- Setting `nsd` without including control data: `write` fails before
touching the file. -/
theorem write_badArgs_nogeom (g : NURBS) (nsd : Int) :
    PetIGA.write g false (some nsd) = .error .badArgs := by
  simp only [PetIGA.write, Bool.false_eq_true, if_false]
  rw [if_pos (by simp)]

/-- A successful geometry write and the exact stream it produces. -/
theorem write_ok_geom (g : NURBS) (ctrl : NDArr) (nsd : Int)
    (hc : g.control = some ctrl) (h1 : (g.dim : Int) ≤ nsd) (h3 : nsd ≤ 3) :
    PetIGA.write g true (some nsd)
      = .ok ([.idx IGA_ID, .idx 1, .idx (g.dim : Int)]
          ++ axesStream (g.degree.zip g.knots)
          ++ [.idx nsd, .idx VEC_ID,
              .idx ((controlToWire ctrl.shape.dropLast ctrl.data nsd.toNat).length : Int)]
          ++ (controlToWire ctrl.shape.dropLast ctrl.data nsd.toNat).map WItem.scl) := by
  simp only [PetIGA.write, Option.getD_some, if_true]
  rw [if_neg (not_not_intro ⟨h1, h3⟩), hc]

/-- C1: geometry round-trip.  For every geometry with dimension in {1,2,3},
all degrees ≥ 1, grid sizes `n_i = m_i - degree_i - 1 ≥ 2` and a 4-channel
control grid written with `nsd` equal to the dimension (the default, so its
spatial channels beyond the dimension are the zero padding), `write` followed
by `read` returns a geometry whose dimension, degree sequence, knot vectors
and full control array are exactly the original's. -/
theorem C1_geometry_roundtrip (g : NURBS) (ctrl : NDArr)
    (hv : validGeom g ctrl)
    (hzero : ∀ gC, gC < prodList (sizesOf g) → ∀ ch, ch < 4 →
      g.dim ≤ ch → ch < 3 → ctrl.data.getD (ch + 4 * gC) 0 = 0) :
    (PetIGA.write g true none >>= PetIGA.read) = .ok g := by
  obtain ⟨hc, hd1, hd3, hlen, hax, hshape, hdata⟩ := hv
  have h0 : PetIGA.write g true none = PetIGA.write g true (some (g.dim : Int)) := rfl
  rw [h0, writeRead_ok g ctrl _ ⟨hc, hd1, hd3, hlen, hax, hshape, hdata⟩ le_rfl
    (by exact_mod_cast hd3)]
  rw [Int.toNat_natCast]
  have hrec : reconstructControl (sizesOf g) g.dim
      (controlToWire (sizesOf g) ctrl.data g.dim) = ctrl := by
    have hd := reconData_roundtrip (sizesOf g) g.dim ctrl.data hdata
      (fun gC ch hg hle hlt => hzero gC hg ch (by omega) hle hlt)
    unfold reconstructControl
    rw [hd, ← hshape]
  rw [hrec, ofKnotsControl_valid g ctrl ⟨hc, hd1, hd3, hlen, hax, hshape, hdata⟩]

/-- Witness for C1 at the concrete geometry `wGeom`. -/
theorem C1_geometry_roundtrip_wit :
    validGeom wGeom wCtrl ∧
    (∀ gC, gC < prodList (sizesOf wGeom) → ∀ ch, ch < 4 →
      wGeom.dim ≤ ch → ch < 3 → wCtrl.data.getD (ch + 4 * gC) 0 = 0) ∧
    (PetIGA.write wGeom true none >>= PetIGA.read) = .ok wGeom :=
  ⟨by decide, by decide, C1_geometry_roundtrip wGeom wCtrl (by decide) (by decide)⟩

/-- C4 (amended): geometry read validation.  `read` fails with `badMagic`
when the leading magic word differs from `IGA_ID`; with `dimOutOfRange`
unless the dimension is in `1..3`; and, for the first malformed axis after
any run of well-formed axes, with `invalidDegree` when the stored degree is
`< 1` and with `invalidGridSize` when the grid size as the code computes it
— the int32-wrapped `n = wrap32(knot_length - degree - 1)` — is `< 2`; in
each case the file is rejected and never decoded into a geometry.  When the
mathematical `m - p - 1` is `< 2` but the int32 subtraction wraps to a value
`≥ 2`, the grid-size check passes and the read fails later (see the
counterexample). -/
theorem C4_read_validation :
    (∀ (v : Int) (s : List WItem), v ≠ IGA_ID →
      PetIGA.read (.idx v :: s) = .error .badMagic) ∧
    (∀ (descr dimI : Int) (s : List WItem), ¬(1 ≤ dimI ∧ dimI ≤ 3) →
      PetIGA.read (.idx IGA_ID :: .idx descr :: .idx dimI :: s)
        = .error .dimOutOfRange) ∧
    (∀ (descr dimI : Int) (good : List (Int × List Rat)) (p : Int) (s : List WItem),
      1 ≤ dimI → dimI ≤ 3 → (∀ pu ∈ good, goodAxis pu) →
      good.length < dimI.toNat → p < 1 →
      PetIGA.read ([.idx IGA_ID, .idx descr, .idx dimI] ++ axesStream good
          ++ .idx p :: s) = .error .invalidDegree) ∧
    (∀ (descr dimI : Int) (good : List (Int × List Rat)) (p m : Int) (s : List WItem),
      1 ≤ dimI → dimI ≤ 3 → (∀ pu ∈ good, goodAxis pu) →
      good.length < dimI.toNat → 1 ≤ p → wrapI (m - p - 1) < 2 →
      PetIGA.read ([.idx IGA_ID, .idx descr, .idx dimI] ++ axesStream good
          ++ .idx p :: .idx m :: s) = .error .invalidGridSize) := by
  refine ⟨read_badMagic, read_dimOutOfRange, ?_, ?_⟩
  · intro descr dimI good p s hd1 hd3 hgood hglen hp
    refine read_axesError descr dimI good _ _ hd1 hd3 hgood hglen ?_
    have hc : dimI.toNat - good.length = (dimI.toNat - good.length - 1) + 1 := by omega
    rw [hc]
    exact readAxes_invalidDegree _ p s hp
  · intro descr dimI good p m s hd1 hd3 hgood hglen hp hm
    refine read_axesError descr dimI good _ _ hd1 hd3 hgood hglen ?_
    have hc : dimI.toNat - good.length = (dimI.toNat - good.length - 1) + 1 := by omega
    rw [hc]
    exact readAxes_invalidGridSize _ p m s hp hm

/-- C4 counterexample: for the realizable header `degree = 1`,
`knot_count = -2^31` the mathematical `n = m - p - 1 = -2^31 - 2` is below
2, but the program's int32 subtraction wraps it to `2^31 - 2 ≥ 2`, so the
grid-size check passes and the read fails later at the knot-length check
with `sizeMismatch` — not with `invalidGridSize` as the claim states. -/
theorem C4_wrap_cex :
    PetIGA.read [.idx IGA_ID, .idx 1, .idx 1, .idx 1, .idx (-2147483648)]
      = .error .sizeMismatch ∧
    ((-2147483648 : Int) - 1 - 1 < 2) ∧
    Err.sizeMismatch ≠ Err.invalidGridSize := by
  refine ⟨by decide, by decide, by decide⟩

/-- Witness for C4 at concrete malformed files. -/
theorem C4_read_validation_wit :
    PetIGA.read (.idx 7 :: []) = .error .badMagic ∧
    PetIGA.read (.idx IGA_ID :: .idx 1 :: .idx 0 :: []) = .error .dimOutOfRange ∧
    PetIGA.read ([.idx IGA_ID, .idx 1, .idx 2] ++ axesStream [((1 : Int), ([0, 0, 1, 1] : List Rat))]
        ++ .idx 0 :: []) = .error .invalidDegree ∧
    PetIGA.read ([.idx IGA_ID, .idx 1, .idx 1] ++ axesStream []
        ++ .idx 2 :: .idx 4 :: []) = .error .invalidGridSize :=
  ⟨C4_read_validation.1 7 [] (by decide),
   C4_read_validation.2.1 1 0 [] (by decide),
   C4_read_validation.2.2.1 1 2 [((1 : Int), ([0, 0, 1, 1] : List Rat))] 0 []
     (by decide) (by decide) (by decide) (by decide) (by decide),
   C4_read_validation.2.2.2 1 1 [] 2 4 []
     (by decide) (by decide) (by decide) (by decide) (by decide) (by decide)⟩

/-- C7 (amended): descriptor interpretation.  On read, control data is
treated as present exactly when the int32 `abs` of the descriptor is `≥ 1`.
Descriptor 0 means topology only; any other in-range descriptor except
`-2^31` — negative values included — means control data follows; and
descriptor `-2^31`, whose int32 `abs` wraps to `-2^31`, is also treated as
topology only, so the returned geometry then has no control array. -/
theorem C7_descriptor :
    (∀ (descr dimI : Int) (axes : List (Int × List Rat)) (rest : List WItem),
      (descr = 0 ∨ descr = -2147483648) →
      1 ≤ dimI → dimI ≤ 3 → (∀ pu ∈ axes, goodAxis pu) → axes.length = dimI.toNat →
      PetIGA.read ([.idx IGA_ID, .idx descr, .idx dimI] ++ axesStream axes ++ rest)
        = .ok (NURBS.ofKnotsControl (axes.map Prod.snd) none)) ∧
    (∀ (descr dimI : Int) (axes : List (Int × List Rat)) (nsd : Int)
        (Cw : List Rat) (rest : List WItem),
      -2147483648 < descr → descr < 2147483648 → descr ≠ 0 →
      1 ≤ dimI → dimI ≤ 3 →
      (∀ pu ∈ axes, goodAxis pu) → axes.length = dimI.toNat →
      dimI ≤ nsd → nsd ≤ 3 →
      Cw.length = (nsd.toNat + 1) * prodList (axes.map axisSize) →
      PetIGA.read ([.idx IGA_ID, .idx descr, .idx dimI] ++ axesStream axes
          ++ [.idx nsd, .idx VEC_ID, .idx (Cw.length : Int)] ++ Cw.map WItem.scl ++ rest)
        = .ok (NURBS.ofKnotsControl (axes.map Prod.snd)
            (some (reconstructControl (axes.map axisSize) nsd.toNat Cw)))) := by
  constructor
  · intro descr dimI axes rest hd hd1 hd3 hax haxlen
    refine read_topology_stream descr dimI axes rest ?_ hd1 hd3 hax haxlen
    rcases hd with h | h <;> subst h <;> decide
  · intro descr dimI axes nsd Cw rest hlo hhi hne hd1 hd3 hax haxlen hnsd1 hnsd3 hcw
    refine read_geometry_stream descr dimI axes nsd Cw rest ?_ hd1 hd3 hax haxlen
      hnsd1 hnsd3 hcw
    have h1 : 1 ≤ |descr| := Int.one_le_abs hne
    have h2 : |descr| < 2147483648 := abs_lt.mpr ⟨hlo, hhi⟩
    unfold absI32
    rw [wrapI_eq_self _ (by omega) (by omega)]
    exact h1

/-- C7 counterexample: descriptor `-2^31` is nonzero, yet the reader treats
the file as topology-only — numpy `abs` on int32 wraps `-2^31` to itself, so
`abs(descr) >= 1` is false — and returns a geometry with no control array
even though a full control section follows in the file. -/
theorem C7_wrap_cex :
    PetIGA.read ([.idx IGA_ID, .idx (-2147483648), .idx 1]
        ++ axesStream [((1 : Int), ([0, 0, 1, 1] : List Rat))]
        ++ [.idx 1, .idx VEC_ID, .idx 4] ++ ([10, 1, 20, 1] : List Rat).map WItem.scl)
      = .ok (NURBS.ofKnotsControl [[0, 0, 1, 1]] none) ∧
    (-2147483648 : Int) ≠ 0 := by
  refine ⟨by decide, by decide⟩

/-- Witness for C7: a topology-only file (descriptor 0) and a file with the
negative descriptor -2 carrying control data. -/
theorem C7_descriptor_wit :
    PetIGA.read ([.idx IGA_ID, .idx 0, .idx 1]
        ++ axesStream [((1 : Int), ([0, 0, 1, 1] : List Rat))] ++ [])
      = .ok (NURBS.ofKnotsControl [[0, 0, 1, 1]] none) ∧
    PetIGA.read ([.idx IGA_ID, .idx (-2), .idx 1]
        ++ axesStream [((1 : Int), ([0, 0, 1, 1] : List Rat))]
        ++ [.idx 1, .idx VEC_ID, .idx (([10, 1, 20, 1] : List Rat).length : Int)]
        ++ ([10, 1, 20, 1] : List Rat).map WItem.scl ++ [])
      = .ok (NURBS.ofKnotsControl [[0, 0, 1, 1]]
          (some (reconstructControl [2] 1 [10, 1, 20, 1]))) :=
  ⟨C7_descriptor.1 0 1 [((1 : Int), ([0, 0, 1, 1] : List Rat))] []
     (Or.inl rfl) (by decide) (by decide) (by decide) (by decide),
   C7_descriptor.2 (-2) 1 [((1 : Int), ([0, 0, 1, 1] : List Rat))] 1
     ([10, 1, 20, 1] : List Rat) []
     (by decide) (by decide) (by decide) (by decide) (by decide) (by decide)
     (by decide) (by decide) (by decide) (by decide)⟩

/-- C6: embedding reconstruction.  Writing a valid geometry with any
`saved_spatial_dims = nsd` between the dimension and 3 and reading the file
back yields a control array of shape `(n_1..n_d, 4)` whose first `nsd`
channels equal the stored (written) spatial channels, whose spatial channels
in `[nsd, 3)` are identically zero and whose channel 3 is the stored weight
channel. -/
theorem C6_embedding (g : NURBS) (ctrl : NDArr) (nsd : Int)
    (hv : validGeom g ctrl) (hnsd1 : (g.dim : Int) ≤ nsd) (hnsd3 : nsd ≤ 3) :
    ∃ c : NDArr,
      (PetIGA.write g true (some nsd) >>= PetIGA.read)
        = .ok { degree := g.degree, knots := g.knots, control := some c } ∧
      c.shape = sizesOf g ++ [4] ∧
      (∀ gC, gC < prodList (sizesOf g) → ∀ ch, ch < 4 →
        c.data.getD (ch + 4 * gC) 0 =
          if ch < nsd.toNat ∨ ch = 3 then ctrl.data.getD (ch + 4 * gC) 0 else 0) := by
  refine ⟨reconstructControl (sizesOf g) nsd.toNat
    (controlToWire (sizesOf g) ctrl.data nsd.toNat), ?_, rfl, ?_⟩
  · rw [writeRead_ok g ctrl nsd hv hnsd1 hnsd3,
      ofKnotsControl_degree g ctrl hv _ rfl]
  · intro gC hg ch hch
    exact reconData_controlToWire_getD (sizesOf g) nsd.toNat ctrl.data gC ch hg hch

/-- Witness for C6: the concrete geometry `wGeom2` written with `nsd = 2`. -/
theorem C6_embedding_wit :
    validGeom wGeom2 wCtrl2 ∧
    ∃ c : NDArr,
      (PetIGA.write wGeom2 true (some 2) >>= PetIGA.read)
        = .ok { degree := wGeom2.degree, knots := wGeom2.knots, control := some c } ∧
      c.shape = sizesOf wGeom2 ++ [4] ∧
      (∀ gC, gC < prodList (sizesOf wGeom2) → ∀ ch, ch < 4 →
        c.data.getD (ch + 4 * gC) 0 =
          if ch < (2 : Int).toNat ∨ ch = 3 then wCtrl2.data.getD (ch + 4 * gC) 0 else 0) :=
  ⟨by decide, C6_embedding wGeom2 wCtrl2 2 (by decide) (by decide) (by decide)⟩

/-- C8: write argument validation.  With control data included,
`saved_spatial_dims` defaults to the geometry's dimension and the call fails
with `badArgs` unless `dimension ≤ nsd ≤ 3` (and succeeds when the bound
holds and the geometry has a control array); without control data the call
fails whenever `saved_spatial_dims` is set. -/
theorem C8_write_validation :
    (∀ g : NURBS,
      PetIGA.write g true none = PetIGA.write g true (some (g.dim : Int))) ∧
    (∀ (g : NURBS) (nsd : Int), ¬((g.dim : Int) ≤ nsd ∧ nsd ≤ 3) →
      PetIGA.write g true (some nsd) = .error .badArgs) ∧
    (∀ (g : NURBS) (ctrl : NDArr) (nsd : Int), g.control = some ctrl →
      (g.dim : Int) ≤ nsd → nsd ≤ 3 →
      ∃ s, PetIGA.write g true (some nsd) = .ok s) ∧
    (∀ (g : NURBS) (nsd : Int),
      PetIGA.write g false (some nsd) = .error .badArgs) := by
  refine ⟨fun g => rfl, write_badArgs_geom, ?_, write_badArgs_nogeom⟩
  intro g ctrl nsd hc h1 h3
  exact ⟨_, write_ok_geom g ctrl nsd hc h1 h3⟩

/-- Witness for C8 at the concrete geometry `wGeom`. -/
theorem C8_write_validation_wit :
    PetIGA.write wGeom true none = PetIGA.write wGeom true (some (wGeom.dim : Int)) ∧
    PetIGA.write wGeom true (some 5) = .error .badArgs ∧
    (∃ s, PetIGA.write wGeom true (some 2) = .ok s) ∧
    PetIGA.write wGeom false (some 1) = .error .badArgs :=
  ⟨C8_write_validation.1 wGeom,
   C8_write_validation.2.1 wGeom 5 (by decide),
   C8_write_validation.2.2.1 wGeom wCtrl 2 (by decide) (by decide) (by decide),
   C8_write_validation.2.2.2 wGeom 1⟩

/-- C10: write atomicity on argument errors.  When `write` is called with
control data included but `nsd` outside `[dimension, 3]`, or without control
data but with `nsd` set, the validation fails before the destination file is
opened: the file-event trace is empty and in particular contains no
open-for-write event, so an existing file is neither created, truncated nor
modified. -/
theorem C10_write_atomic :
    (∀ (g : NURBS) (nsd : Int), ¬((g.dim : Int) ≤ nsd ∧ nsd ≤ 3) →
      PetIGA.writeTrace g true (some nsd) = [] ∧
      FEv.openWrite ∉ PetIGA.writeTrace g true (some nsd)) ∧
    (∀ (g : NURBS) (nsd : Int),
      PetIGA.writeTrace g false (some nsd) = [] ∧
      FEv.openWrite ∉ PetIGA.writeTrace g false (some nsd)) := by
  constructor
  · intro g nsd h
    have hw := write_badArgs_geom g nsd h
    exact ⟨by simp [PetIGA.writeTrace, hw], by simp [PetIGA.writeTrace, hw]⟩
  · intro g nsd
    have hw := write_badArgs_nogeom g nsd
    exact ⟨by simp [PetIGA.writeTrace, hw], by simp [PetIGA.writeTrace, hw]⟩

/-- Witness for C10 at the concrete geometry `wGeom`. -/
theorem C10_write_atomic_wit :
    (PetIGA.writeTrace wGeom true (some 5) = [] ∧
      FEv.openWrite ∉ PetIGA.writeTrace wGeom true (some 5)) ∧
    (PetIGA.writeTrace wGeom false (some 1) = [] ∧
      FEv.openWrite ∉ PetIGA.writeTrace wGeom false (some 1)) :=
  ⟨C10_write_atomic.1 wGeom 5 (by decide), C10_write_atomic.2 wGeom 1⟩

/-- C9: corruption detection.  For every validly written geometry file:
changing the header magic to any different value makes `read` fail with
`badMagic`, and truncating the file after some axis's knot-count field but
before all of that axis's knot values (keeping `t < m` of them) yields a
prefix of the written file on which `read` fails with `sizeMismatch` (the
`ShortRead`/`SizeMismatch` family) instead of returning a geometry. -/
theorem C9_corruption (g : NURBS) (ctrl : NDArr)
    (hv : validGeom g ctrl)
    (d1 d2 : List Int) (p : Int) (K1 K2 : List (List Rat)) (U : List Rat) (t : Nat)
    (hdeg : g.degree = d1 ++ p :: d2) (hkn : g.knots = K1 ++ U :: K2)
    (hlen1 : d1.length = K1.length) (ht : t < U.length) :
    ∃ w rest,
      PetIGA.write g true none = .ok w ∧
      w = ([.idx IGA_ID, .idx 1, .idx (g.dim : Int)] ++ axesStream (d1.zip K1)
          ++ .idx p :: .idx (U.length : Int) :: (U.take t).map WItem.real) ++ rest ∧
      (∀ v : Int, v ≠ IGA_ID → PetIGA.read (.idx v :: w.tail) = .error .badMagic) ∧
      PetIGA.read ([.idx IGA_ID, .idx 1, .idx (g.dim : Int)] ++ axesStream (d1.zip K1)
          ++ .idx p :: .idx (U.length : Int) :: (U.take t).map WItem.real)
        = .error .sizeMismatch := by
  obtain ⟨hc, hd1, hd3, hlen, hax, hshape, hdata⟩ := hv
  have hw := write_ok_geom g ctrl (g.dim : Int) hc le_rfl (by exact_mod_cast hd3)
  have h0 : PetIGA.write g true none = PetIGA.write g true (some (g.dim : Int)) := rfl
  have hzip : g.degree.zip g.knots = d1.zip K1 ++ ((p, U) :: d2.zip K2) := by
    rw [hdeg, hkn, List.zip_append hlen1]
    rfl
  have haxs : axesStream (g.degree.zip g.knots)
      = axesStream (d1.zip K1) ++ (WItem.idx p :: WItem.idx (U.length : Int) ::
          (U.map WItem.real ++ axesStream (d2.zip K2))) := by
    rw [hzip, axesStream_append]
    rfl
  have hpu : goodAxis (p, U) := hax (p, U) (by
    rw [hzip]
    exact List.mem_append_right _ (List.mem_cons_self _ _))
  have hp : 1 ≤ p := hpu.1
  have hn : 2 ≤ (U.length : Int) - p - 1 := by
    have := hpu.2.1
    unfold axisSizeI at this
    dsimp only at this
    exact this
  have hb : (U.length : Int) < 2147483648 := by
    have := hpu.2.2
    dsimp only at this
    exact this
  have hglen : (d1.zip K1).length < ((g.dim : Int)).toNat := by
    rw [List.length_zip, hlen1, Nat.min_self, Int.toNat_natCast]
    unfold NURBS.dim
    rw [hkn]
    simp
  refine ⟨_, (U.drop t).map WItem.real ++ axesStream (d2.zip K2)
      ++ [.idx (g.dim : Int), .idx VEC_ID,
          .idx ((controlToWire ctrl.shape.dropLast ctrl.data ((g.dim : Int)).toNat).length : Int)]
      ++ (controlToWire ctrl.shape.dropLast ctrl.data ((g.dim : Int)).toNat).map WItem.scl,
    h0.trans hw, ?_, ?_, ?_⟩
  · rw [haxs]
    have hU : U.map WItem.real
        = (U.take t).map WItem.real ++ (U.drop t).map WItem.real := by
      rw [← List.map_append, List.take_append_drop]
    rw [hU]
    simp only [List.append_assoc, List.cons_append]
  · intro v hv2
    exact read_badMagic v _ hv2
  · refine read_axesError 1 (g.dim : Int) (d1.zip K1) _ _
      (by exact_mod_cast hd1) (by exact_mod_cast hd3)
      (fun pu hm => hax pu (by rw [hzip]; exact List.mem_append_left _ hm))
      hglen ?_
    have hcnt : ((g.dim : Int)).toNat - (d1.zip K1).length
        = (((g.dim : Int)).toNat - (d1.zip K1).length - 1) + 1 := by omega
    rw [hcnt]
    refine readAxes_truncKnots _ p (U.length : Int) (U.take t) hp hn (by omega) ?_
    rw [List.length_take]
    have hmin : min t U.length = t := by omega
    rw [hmin]
    omega

/-- Witness for C9: `wGeom` written, magic flipped, and the knot vector of
its single axis truncated to 2 of its 4 declared values. -/
theorem C9_corruption_wit :
    validGeom wGeom wCtrl ∧
    ∃ w rest,
      PetIGA.write wGeom true none = .ok w ∧
      w = ([.idx IGA_ID, .idx 1, .idx (wGeom.dim : Int)]
          ++ axesStream (([] : List Int).zip ([] : List (List Rat)))
          ++ .idx 1 :: .idx (([0, 0, 1, 1] : List Rat).length : Int)
            :: (([0, 0, 1, 1] : List Rat).take 2).map WItem.real) ++ rest ∧
      (∀ v : Int, v ≠ IGA_ID → PetIGA.read (.idx v :: w.tail) = .error .badMagic) ∧
      PetIGA.read ([.idx IGA_ID, .idx 1, .idx (wGeom.dim : Int)]
          ++ axesStream (([] : List Int).zip ([] : List (List Rat)))
          ++ .idx 1 :: .idx (([0, 0, 1, 1] : List Rat).length : Int)
            :: (([0, 0, 1, 1] : List Rat).take 2).map WItem.real)
        = .error .sizeMismatch :=
  ⟨by decide, C9_corruption wGeom wCtrl (by decide) [] [] 1 [] [] [0, 0, 1, 1] 2
    (by decide) (by decide) (by decide) (by decide)⟩

/-- C5: vector round-trip.  For every Scalar array whose size is a multiple
of the product of a geometry's grid sizes (all of which are at least 2 by the
geometry invariant), `write_vec` with that geometry followed by `read_vec`
with the same geometry returns the original data exactly, with the trailing
degrees-of-freedom axis dropped exactly when it is the degenerate size 1; and
`read_vec` without a geometry returns the flat stored array unchanged. -/
theorem C5_vec_roundtrip (nb : NURBS) (arr : NDArr)
    (hsz : ∀ n ∈ nb.shape, 2 ≤ n)
    (hdvd : prodList nb.shape ∣ arr.data.length) :
    (∃ s, PetIGA.write_vec arr (some nb) = .ok s ∧
       PetIGA.read_vec s (some nb)
         = .ok { shape := nb.shape ++ (if arr.data.length / prodList nb.shape = 1
                    then [] else [arr.data.length / prodList nb.shape]),
                 data := arr.data }) ∧
    (∀ data : List Rat,
      PetIGA.read_vec ([.idx VEC_ID, .idx (data.length : Int)] ++ data.map WItem.scl) none
        = .ok { shape := [data.length], data := data }) := by
  constructor
  · have hP : 0 < prodList nb.shape := prodList_pos nb.shape hsz
    have hlen : arr.data.length = (arr.data.length / prodList nb.shape) * prodList nb.shape :=
      (Nat.div_mul_cancel hdvd).symm
    refine ⟨[.idx VEC_ID,
        .idx ((vecToWire nb.shape (arr.data.length / prodList nb.shape) arr.data).length : Int)]
        ++ (vecToWire nb.shape (arr.data.length / prodList nb.shape) arr.data).map WItem.scl,
      ?_, ?_⟩
    · simp only [PetIGA.write_vec]
      rw [if_pos ⟨hP, hdvd⟩]
    · simp only [List.cons_append, List.nil_append]
      simp only [PetIGA.read_vec, readI, bind, Except.bind]
      rw [if_neg (by simp)]
      have hex := readArrS_exact (vecToWire nb.shape (arr.data.length / prodList nb.shape) arr.data) []
      rw [List.append_nil] at hex
      rw [Int.toNat_natCast, hex]
      simp only []
      rw [if_neg (by simp)]
      rw [vecToWire_length]
      rw [if_pos ⟨hP, dvd_mul_left _ _⟩]
      rw [Nat.mul_div_cancel _ hP]
      rw [wireToVec_vecToWire _ _ _ hlen]
      rw [List.filter_append]
      have hf1 : nb.shape.filter (fun m => m ≠ 1) = nb.shape := by
        rw [List.filter_eq_self]
        intro a ha
        have := hsz a ha
        simp
        omega
      have hf2 : [arr.data.length / prodList nb.shape].filter (fun m => m ≠ 1)
          = if arr.data.length / prodList nb.shape = 1 then []
            else [arr.data.length / prodList nb.shape] := by
        by_cases h : arr.data.length / prodList nb.shape = 1 <;> simp [h, List.filter]
      rw [hf1, hf2]
  · intro data
    simp only [List.cons_append, List.nil_append]
    simp only [PetIGA.read_vec, readI, bind, Except.bind]
    rw [if_neg (by simp)]
    have hex := readArrS_exact data []
    rw [List.append_nil] at hex
    rw [Int.toNat_natCast, hex]
    simp only []
    rw [if_neg (by simp)]

/-- Witness for C5: the 4-element array `wArr` (two degrees of freedom)
against the grid of `wGeom`, and a flat 2-element read without geometry. -/
theorem C5_vec_roundtrip_wit :
    (∀ n ∈ wGeom.shape, 2 ≤ n) ∧ prodList wGeom.shape ∣ wArr.data.length ∧
    (∃ s, PetIGA.write_vec wArr (some wGeom) = .ok s ∧
       PetIGA.read_vec s (some wGeom)
         = .ok { shape := wGeom.shape ++ (if wArr.data.length / prodList wGeom.shape = 1
                    then [] else [wArr.data.length / prodList wGeom.shape]),
                 data := wArr.data }) ∧
    PetIGA.read_vec ([.idx VEC_ID, .idx (([5, 6] : List Rat).length : Int)]
        ++ ([5, 6] : List Rat).map WItem.scl) none
      = .ok { shape := [([5, 6] : List Rat).length], data := [5, 6] } :=
  ⟨by decide, by decide,
   (C5_vec_roundtrip wGeom wArr (by decide) (by decide)).1,
   (C5_vec_roundtrip wGeom wArr (by decide) (by decide)).2 [5, 6]⟩

/-- C3 (amended): byte-order conversion on read.  Every array obtained
through `PetIGA._read` — the geometry read, `read_vec`, and `read_mat`'s
magic, header, per-row counts and column indices — is converted from the
MSB-first wire byte order to native byte order before being returned; the
sparse-matrix values array, however, is read with a bare `np.fromfile`
(io.py line 209) and is returned still in wire byte order (its numeric
values are nevertheless the MSB-first decodings of its bytes). -/
theorem C3_byteorder :
    (∀ (w count : Nat) (bs : List Nat),
      ((readBI w count bs).1).order = ByteOrder.native) ∧
    (∀ (iw sw : Nat) (bs : List Nat) (M N : Int) (AI AJ AV : NpArray),
      readMatB iw sw bs = .ok ((M, N), (AI, AJ, AV)) →
      AI.order = ByteOrder.native ∧ AJ.order = ByteOrder.native ∧
      AV.order = ByteOrder.wire) := by
  constructor
  · intro w count bs
    rfl
  · intro iw sw bs M N AI AJ AV h
    unfold readMatB at h
    simp only [bind, Except.bind] at h
    cases hb1 : readB1I iw bs with
    | error e =>
      rw [hb1] at h
      simp at h
    | ok pr =>
      rw [hb1] at h
      simp only [] at h
      by_cases h1 : pr.1 ≠ MAT_ID
      · rw [if_pos h1] at h
        simp at h
      · rw [if_neg h1] at h
        split at h
        case _ M2 N2 nz2 heq =>
          by_cases h2 : M2 < 0
          · rw [if_pos h2] at h
            simp at h
          · rw [if_neg h2] at h
            by_cases h3 : (((readBI iw M2.toNat (readBI iw 3 pr.2).2).1).vals.length : Int) ≠ M2
            · rw [if_pos h3] at h
              simp at h
            · rw [if_neg h3] at h
              by_cases h4 : (cumsumFrom0 ((readBI iw M2.toNat (readBI iw 3 pr.2).2).1).vals).getLast? ≠ some nz2
              · rw [if_pos h4] at h
                simp at h
              · rw [if_neg h4] at h
                by_cases h5 : ((((readBI iw nz2.toNat (readBI iw M2.toNat (readBI iw 3 pr.2).2).2).1).vals).length : Int) ≠ nz2
                · rw [if_pos h5] at h
                  simp at h
                · rw [if_neg h5] at h
                  by_cases h6 : ((((fromfileS sw nz2.toNat (readBI iw nz2.toNat (readBI iw M2.toNat (readBI iw 3 pr.2).2).2).2).1).vals).length : Int) ≠ nz2
                  · rw [if_pos h6] at h
                    simp at h
                  · rw [if_neg h6] at h
                    simp only [Except.ok.injEq, Prod.mk.injEq] at h
                    obtain ⟨⟨hM, hN⟩, hAI, hAJ, hAV⟩ := h
                    refine ⟨?_, ?_, ?_⟩
                    · rw [← hAI]
                    · rw [← hAJ]
                      rfl
                    · rw [← hAV]
                      rfl
        case _ =>
          simp at h

/-- C3 counterexample: on the concrete matrix file `matBytes`, the row
pointers and column indices come back native-ordered but the values array
comes back tagged with the wire byte order, so not every value returned by
`read_mat` has been converted to host byte order. -/
theorem C3_byteorder_cex :
    readMatB 4 8 matBytes
      = .ok ((1, 1), (⟨ByteOrder.native, [0, 1]⟩, ⟨ByteOrder.native, [0]⟩,
          ⟨ByteOrder.wire, [7]⟩)) ∧
    ByteOrder.wire ≠ ByteOrder.native := by
  refine ⟨by decide, by decide⟩

/-- Witness for C3 at a concrete `_read` call and the matrix file
`matBytes`. -/
theorem C3_byteorder_wit :
    ((readBI 4 1 [0, 0, 0, 5]).1).order = ByteOrder.native ∧
    ((⟨ByteOrder.native, [0, 1]⟩ : NpArray).order = ByteOrder.native ∧
      (⟨ByteOrder.native, [0]⟩ : NpArray).order = ByteOrder.native ∧
      (⟨ByteOrder.wire, [7]⟩ : NpArray).order = ByteOrder.wire) :=
  ⟨C3_byteorder.1 4 1 [0, 0, 0, 5],
   C3_byteorder.2 4 8 matBytes 1 1 ⟨ByteOrder.native, [0, 1]⟩ ⟨ByteOrder.native, [0]⟩
     ⟨ByteOrder.wire, [7]⟩ (by decide)⟩

end Igakit
